import Mathlib

/-
Verification of the declaration-extraction engine of the AI-Forge repository.

The definitions below are a shallow embedding of
`Supporting Files/ScriptsAndConfigs/generate_api_optimized_dataset.py`
(the same engine appears, with identical logic, in
`Supporting Files/scripts/generate_unified_dataset.py`).
Lines of a source file are modelled as `List Char`; the handful of regular
expressions used by the script are small and deterministic, and are embedded
as explicit scanners with the same alternation order and greediness as
Python's `re` engine has on these patterns.
-/

set_option maxRecDepth 8000

namespace ApiGen

/-- Characters of one physical line, as scanned by the Python script. -/
abbrev Chars := List Char

/-- Whitespace class of Python's str.strip and of the regex class \s (ASCII range). -/
def isSpaceChar (c : Char) : Bool :=
  c = ' ' || c = '\t' || c = '\n' || c = '\r' || c = '\x0b' || c = '\x0c'

/-- Python str.strip(): drop whitespace from both ends. -/
def pyStrip (s : Chars) : Chars :=
  ((s.dropWhile isSpaceChar).reverse.dropWhile isSpaceChar).reverse

/-- Python str.lstrip("/"): drop leading slash characters. -/
def lstripSlash (s : Chars) : Chars := s.dropWhile (fun c => c = '/')

/-- Python `needle in hay` substring test. -/
def isSubstr (needle : Chars) : Chars → Bool
  | [] => needle.isEmpty
  | c :: rest => needle.isPrefixOf (c :: rest) || isSubstr needle rest

/-- Python s.split(" ", 1): split at the first space character, if any. -/
def splitOnceSpace : Chars → Option (Chars × Chars)
  | [] => none
  | c :: rest =>
    if c = ' ' then some ([], rest)
    else (splitOnceSpace rest).map (fun p => (c :: p.1, p.2))

/-- Python s.split("."): split on every dot; the result is never empty. -/
def splitOnDot : Chars → List Chars
  | [] => [[]]
  | c :: rest =>
    if c = '.' then [] :: splitOnDot rest
    else
      match splitOnDot rest with
      | [] => [[c]]
      | p :: ps => (c :: p) :: ps

/-- Digit test of the regex class [0-9]. -/
def isDigitChar (c : Char) : Bool := '0' ≤ c && c ≤ '9'

/-- Word-character test of the regex class \w (ASCII range). -/
def isWordChar (c : Char) : Bool := c.isAlpha || isDigitChar c || c = '_'

/-- Python int() on a string of decimal digits. -/
def charsToNat (s : Chars) : Nat :=
  s.foldl (fun n c => n * 10 + (c.toNat - '0'.toNat)) 0

/-- A (major, minor) iOS version pair. -/
abbrev Version := Nat × Nat

/-- The fixed configuration constant MIN_IOS_VERSION = (17, 0). -/
def MIN_IOS_VERSION : Version := (17, 0)

/-- version_to_tuple: strip, split on ".", major from part 0, minor from part 1 or 0.
    (int() is only ever applied to all-digit regex groups in the script.) -/
def version_to_tuple (text : Chars) : Version :=
  let parts := splitOnDot (pyStrip text)
  let major := charsToNat (parts.headD [])
  let minor := if 1 < parts.length then charsToNat (parts.getD 1 []) else 0
  (major, minor)

/-- is_version_at_least: None never passes; otherwise Python's lexicographic
    tuple comparison `version >= target`. -/
def is_version_at_least (version : Option Version) (target : Version) : Bool :=
  match version with
  | none => false
  | some (a, b) => target.1 < a || (a = target.1 && target.2 ≤ b)

/-- Drop a literal prefix, or fail (regex literal matching). -/
def dropLit (lit s : Chars) : Option Chars :=
  if lit.isPrefixOf s then some (s.drop lit.length) else none

/-- Regex \s+ : require at least one whitespace character, consume the whole run. -/
def dropSpacesPlus (s : Chars) : Option Chars :=
  match s with
  | [] => none
  | c :: rest => if isSpaceChar c then some (rest.dropWhile isSpaceChar) else none

/-- Regex (\w+) : capture a nonempty maximal run of word characters. -/
def takeWordPlus (s : Chars) : Option (Chars × Chars) :=
  let w := s.takeWhile isWordChar
  if w.isEmpty then none else some (w, s.drop w.length)

/-- First alternative that succeeds, in order (regex alternation with backtracking). -/
def firstSome {α β : Type} (f : α → Option β) : List α → Option β
  | [] => none
  | a :: as =>
    match f a with
    | some b => some b
    | none => firstSome f as

/-- The visibility keywords, in the alternation order of the patterns. -/
def visKeywords : List Chars :=
  ["public".data, "open".data, "internal".data, "fileprivate".data, "private".data]

/-- The type keywords, in the alternation order of type_decl_re. -/
def typeKeywords : List Chars :=
  ["actor".data, "class".data, "struct".data, "enum".data, "protocol".data]

/-- Regex prefix (public|open|internal|fileprivate|private)?\s* with continuation k:
    the alternatives are tried in order, then the empty option, backtracking into k. -/
def withVis {β : Type} (k : Chars → Option β) (s : Chars) : Option β :=
  match firstSome (fun v => (dropLit v s).bind (fun r => k (r.dropWhile isSpaceChar))) visKeywords with
  | some b => some b
  | none => k (s.dropWhile isSpaceChar)

/-- Regex (static\s+|class\s+)? with continuation k, same backtracking scheme. -/
def withStaticClass {β : Type} (k : Chars → Option β) (s : Chars) : Option β :=
  match (dropLit "static".data s).bind (fun r => (dropSpacesPlus r).bind k) with
  | some b => some b
  | none =>
    match (dropLit "class".data s).bind (fun r => (dropSpacesPlus r).bind k) with
    | some b => some b
    | none => k s

/-- type_decl_re.match: ^(vis)?\s*(actor|class|struct|enum|protocol)\s+(\w+),
    returning (group 2, group 3) = (kind keyword, name). -/
def matchTypeDecl (s : Chars) : Option (Chars × Chars) :=
  withVis (fun r =>
    firstSome (fun kw =>
      (dropLit kw r).bind (fun r2 =>
        (dropSpacesPlus r2).bind (fun r3 =>
          (takeWordPlus r3).map (fun p => (kw, p.1))))) typeKeywords) s

/-- func_decl_re.match: ^(vis)?\s*(static\s+|class\s+)?func\s+(\w+), returning group 3. -/
def matchFuncDecl (s : Chars) : Option Chars :=
  withVis (withStaticClass (fun r =>
    (dropLit "func".data r).bind (fun r2 =>
      (dropSpacesPlus r2).bind (fun r3 =>
        (takeWordPlus r3).map Prod.fst)))) s

/-- init_decl_re.match: ^(vis)?\s*(static\s+|class\s+)?init\b (\b: next char absent or non-word). -/
def matchInitDecl (s : Chars) : Bool :=
  (withVis (β := Unit) (withStaticClass (fun r =>
    (dropLit "init".data r).bind (fun r2 =>
      match r2 with
      | [] => some ()
      | c :: _ => if isWordChar c then none else some ()))) s).isSome

/-- prop_decl_re.match: ^(vis)?\s*(static\s+|class\s+)?(var|let)\s+(\w+), returning group 4. -/
def matchPropDecl (s : Chars) : Option Chars :=
  withVis (withStaticClass (fun r =>
    firstSome (fun kw =>
      (dropLit kw r).bind (fun r2 =>
        (dropSpacesPlus r2).bind (fun r3 =>
          (takeWordPlus r3).map Prod.fst))) ["var".data, "let".data])) s

/-- Greedy capture [0-9]+(?:\.[0-9]+)? : digits, then optionally a dot followed by digits. -/
def numGroup (s : Chars) : Option Chars :=
  let d1 := s.takeWhile isDigitChar
  if d1.isEmpty then none
  else
    match s.drop d1.length with
    | '.' :: r2 =>
      let d2 := r2.takeWhile isDigitChar
      if d2.isEmpty then some d1 else some (d1 ++ '.' :: d2)
    | _ => some d1

/-- Anchored attempt of the pattern iOS\s+([0-9]+(?:\.[0-9]+)?) at the start of s. -/
def directVersionAt (s : Chars) : Option Chars :=
  (dropLit "iOS".data s).bind (fun r => (dropSpacesPlus r).bind numGroup)

/-- re.search for the direct iOS version pattern: the leftmost start position wins. -/
def searchDirect : Chars → Option Chars
  | [] => none
  | c :: rest =>
    match directVersionAt (c :: rest) with
    | some g => some g
    | none => searchDirect rest

/-- Anchored attempt of the pattern introduced:\s*([0-9]+(?:\.[0-9]+)?). -/
def introducedAt (s : Chars) : Option Chars :=
  (dropLit "introduced:".data s).bind (fun r => numGroup (r.dropWhile isSpaceChar))

/-- re.search for the keyed introduced pattern: the leftmost start position wins. -/
def searchIntroduced : Chars → Option Chars
  | [] => none
  | c :: rest =>
    match introducedAt (c :: rest) with
    | some g => some g
    | none => searchIntroduced rest

/-- The availability verdict: (introduced, deprecated, unavailable). -/
abbrev AvailState := Option Version × Bool × Bool

/-- One iteration of the loop of parse_ios_availability. -/
def availStep (st : AvailState) (raw : Chars) : AvailState :=
  let line := pyStrip raw
  if !(isSubstr "iOS".data line) then st
  else
    let unav := st.2.2 || isSubstr "unavailable".data line
    let dep := st.2.1 || isSubstr "deprecated".data line || isSubstr "obsoleted".data line
    match searchDirect line with
    | some g => (some (version_to_tuple g), dep, unav)
    | none =>
      match searchIntroduced line with
      | some g => (some (version_to_tuple g), dep, unav)
      | none => (st.1, dep, unav)

/-- parse_ios_availability: fold the loop over the accumulated availability lines. -/
def parse_ios_availability (avail_lines : List Chars) : AvailState :=
  avail_lines.foldl availStep (none, false, false)

/-- Emit a run of n newlines, collapsing runs of 3 or more to exactly 2. -/
def nlRun (n : Nat) : Chars := if 3 ≤ n then ['\n', '\n'] else List.replicate n '\n'

/-- Structural implementation of re.sub(r"\n\x7b3,\x7d", "\n\n", s): the first
    argument counts the pending newline run. -/
def collapseNewlines : Nat → Chars → Chars
  | n, [] => nlRun n
  | n, c :: rest =>
    if c = '\n' then collapseNewlines (n + 1) rest
    else nlRun n ++ c :: collapseNewlines 0 rest

/-- Python "\n".join. -/
def joinNL : List Chars → Chars
  | [] => []
  | [l] => l
  | l :: ls => l ++ '\n' :: joinNL ls

/-- clean_doc_lines: per line drop leading slashes and strip; join with newlines,
    strip, and collapse blank runs. -/
def clean_doc_lines (doc_lines : List Chars) : Chars :=
  let cleaned := doc_lines.map (fun l => pyStrip (lstripSlash l))
  collapseNewlines 0 (pyStrip (joinNL cleaned))

/-- The closed modifier set of normalize_line. -/
def leading_modifiers : List Chars :=
  ["nonisolated".data, "inlinable".data, "convenience".data, "mutating".data,
   "consuming".data, "borrowing".data, "isolated".data, "rethrows".data]

/-- The attribute-dropping loop of normalize_line. Fuel bounds the iteration
    count; each iteration strictly shortens the string, so s.length suffices. -/
def stripAttrsFuel : Nat → Chars → Chars
  | 0, s => s
  | fuel + 1, s =>
    if "@".data.isPrefixOf s && s.contains ' ' then
      match splitOnceSpace s with
      | some (_, rest) => stripAttrsFuel fuel (pyStrip rest)
      | none => s
    else s

/-- The attribute-dropping loop: while s starts with "@" and has a space,
    s = s.split(" ", 1)[1].strip(). -/
def stripAttrs (s : Chars) : Chars := stripAttrsFuel s.length s

/-- The modifier-dropping loop of normalize_line, with fuel as above. -/
def stripModsFuel : Nat → Chars → Chars
  | 0, s => s
  | fuel + 1, s =>
    match splitOnceSpace s with
    | some (first, rest) =>
      if leading_modifiers.contains first then stripModsFuel fuel rest else s
    | none => if leading_modifiers.contains s then [] else s

/-- The modifier-dropping loop: while the first space-separated token is a
    leading modifier, drop it (an all-modifier line becomes empty). -/
def stripMods (s : Chars) : Chars := stripModsFuel s.length s

/-- normalize_line: strip, drop leading attributes, drop leading modifier keywords. -/
def normalize_line (line : Chars) : Chars := stripMods (stripAttrs (pyStrip line))

/-- A single API surface element captured from the doc sources. -/
structure ApiElement where
  name : Chars
  kind : Chars
  signature : Chars
  doc : Chars
  ios_introduced : Option Version
  deprecated : Bool
  unavailable : Bool
  source_file : String
  parent_type : Option Chars
deriving DecidableEq, Repr

/-- The full_name property of ApiElement (Python truthiness: an empty
    parent_type string also falls back to the bare name). -/
def ApiElement.full_name (e : ApiElement) : Chars :=
  match e.parent_type with
  | some p =>
    if !p.isEmpty && (e.kind = "func".data || e.kind = "property".data) then
      p ++ '.' :: e.name
    else e.name
  | none => e.name

/-- Scanner state of the per-line loop of extract_api_elements. The extra
    field matched records the locally computed (element_kind, element_name,
    parent_type) triple of every matched declaration, eligible or not; it is
    an observer of values the script computes and does not influence the rest
    of the state. -/
structure ScanState where
  doc_lines : List Chars
  avail_lines : List Chars
  type_stack : List (Chars × Int)
  brace_depth : Int
  elements : List ApiElement
  matched : List (Chars × Chars × Option Chars)
deriving DecidableEq, Repr

/-- The freshly initialized per-unit state. -/
def initState : ScanState := ⟨[], [], [], 0, [], []⟩

/-- The inline eligibility test of extract_api_elements. -/
def eligible (st : AvailState) : Bool :=
  is_version_at_least st.1 MIN_IOS_VERSION && !st.2.1 && !st.2.2

/-- The if/elif cascade choosing element_kind and element_name. -/
def declMatch (normalized : Chars) : Option (Chars × Chars) :=
  match matchTypeDecl normalized with
  | some kn => some kn
  | none =>
    match matchFuncDecl normalized with
    | some n => some ("func".data, n)
    | none =>
      if matchInitDecl normalized then some ("func".data, "init".data)
      else (matchPropDecl normalized).map (fun n => ("property".data, n))

/-- The while-pop loop of the nesting tracker (the list head is Python's stack top). -/
def popWhile (depth : Int) : List (Chars × Int) → List (Chars × Int)
  | [] => []
  | (n, d) :: rest => if depth < d then popWhile depth rest else (n, d) :: rest

/-- Construction of the emitted ApiElement: signature is the stripped
    availability lines followed by the stripped declaration line, joined by
    newlines; doc is the cleaned doc buffer. -/
def buildElement (src : String) (kind nm : Chars) (parent : Option Chars)
    (avail : AvailState) (avail_lines doc_lines : List Chars) (stripped : Chars) : ApiElement :=
  { name := nm
    kind := kind
    signature := joinNL ((avail_lines.map pyStrip) ++ [stripped])
    doc := clean_doc_lines doc_lines
    ios_introduced := avail.1
    deprecated := avail.2.1
    unavailable := avail.2.2
    source_file := src
    parent_type := parent }

/-- Doc-comment line test on the stripped line. -/
def isDocLine (stripped : Chars) : Bool := "///".data.isPrefixOf stripped

/-- Availability-attribute line test on the stripped line. -/
def isAvailLine (stripped : Chars) : Bool := "@available".data.isPrefixOf stripped

/-- The declaration-handling block of the loop: on a match, record the locally
    computed triple, emit the element when it passes the eligibility test, and
    clear both buffers whether or not it was eligible. -/
def matchPhase (src : String) (s : ScanState) (stripped normalized : Chars) : ScanState :=
  match declMatch normalized with
  | some (kind, nm) =>
    let parent := s.type_stack.head?.map Prod.fst
    let avail := parse_ios_availability s.avail_lines
    let withM := { s with matched := s.matched ++ [(kind, nm, parent)] }
    let emitted :=
      if eligible avail then
        { withM with elements := withM.elements ++
            [buildElement src kind nm parent avail s.avail_lines s.doc_lines stripped] }
      else withM
    { emitted with doc_lines := [], avail_lines := [] }
  | none => s

/-- The brace-tracking block of the loop: net brace delta on the original line,
    push a type declaration that opens a brace, pop scopes that were exited. -/
def bracePhase (s : ScanState) (line : Chars) (tm : Option (Chars × Chars)) : ScanState :=
  let opens : Nat := line.count '\x7b'
  let closes : Nat := line.count '\x7d'
  let depth : Int := s.brace_depth + (opens : Int) - (closes : Int)
  let s2 := { s with brace_depth := depth }
  let s3 :=
    match tm with
    | some tkn => if 0 < opens then { s2 with type_stack := (tkn.2, depth) :: s2.type_stack } else s2
    | none => s2
  { s3 with type_stack := popWhile depth s3.type_stack }

/-- The trailing block of the loop: a non-matching attribute-only line keeps
    the buffers; any other non-matching non-empty non-comment line clears them. -/
def clearPhase (s : ScanState) (stripped : Chars) (isMatched : Bool) : ScanState :=
  if "@".data.isPrefixOf stripped && !isMatched then s
  else if !isMatched && !stripped.isEmpty && !("//".data.isPrefixOf stripped) then
    { s with doc_lines := [], avail_lines := [] }
  else s

/-- One iteration of the per-line loop of extract_api_elements, in the order of
    the script: classify doc and availability lines; otherwise normalize, run
    the declaration block, the brace block, and the buffer-clearing block. -/
def scanStep (src : String) (s : ScanState) (line : Chars) : ScanState :=
  let stripped := pyStrip line
  if isDocLine stripped then { s with doc_lines := s.doc_lines ++ [stripped] }
  else if isAvailLine stripped then { s with avail_lines := s.avail_lines ++ [stripped] }
  else
    let normalized := normalize_line stripped
    clearPhase (bracePhase (matchPhase src s stripped normalized) line (matchTypeDecl normalized))
      stripped (declMatch normalized).isSome

/-- extract_api_elements, over the already line-split text of one source file. -/
def extract_api_elements (src : String) (lines : List Chars) : List ApiElement :=
  (lines.foldl (scanStep src) initState).elements

/-- The (element_kind, element_name, parent_type) triple of every matched
    declaration of a scan, eligible or not. -/
def extractMatched (lines : List Chars) : List (Chars × Chars × Option Chars) :=
  (lines.foldl (scanStep "") initState).matched

instance {α β : Type} [DecidableEq α] [DecidableEq β] : DecidableEq (Except α β) := fun a b =>
  match a, b with
  | .error e, .error f =>
    if h : e = f then isTrue (by rw [h]) else isFalse (fun hc => h (Except.error.inj hc))
  | .ok x, .ok y =>
    if h : x = y then isTrue (by rw [h]) else isFalse (fun hc => h (Except.ok.inj hc))
  | .error _, .ok _ => isFalse (fun hc => Except.noConfusion hc)
  | .ok _, .error _ => isFalse (fun hc => Except.noConfusion hc)

/-- A source unit: its file name and the outcome of read_text (the line-split
    content, or an IO/encoding error). -/
structure SwiftFile where
  name : String
  content : Except String (List Chars)
deriving DecidableEq, Repr

/-- extract_api_elements at unit granularity: the read_text call is not
    guarded by any try/except, so a failing read propagates. -/
def extractFromFile (f : SwiftFile) : Except String (List ApiElement) :=
  match f.content with
  | .error e => .error e
  | .ok lines => .ok (extract_api_elements f.name lines)

/-- Lexicographic code-point comparison of two character sequences: the order
    Python uses on path strings. -/
def charsLe : Chars → Chars → Bool
  | [], _ => true
  | _ :: _, [] => false
  | a :: as, b :: bs => if a = b then charsLe as bs else decide (a < b)

/-- The file ordering used by load_all_api_elements: sorted(api_dir.glob(...)),
    which within one directory is the lexicographic filename order. -/
def fileLe (a b : SwiftFile) : Prop := charsLe a.name.data b.name.data = true

instance : DecidableRel fileLe :=
  fun a b => inferInstanceAs (Decidable (charsLe a.name.data b.name.data = true))

/-- The sorted directory listing. -/
def sortByName (files : List SwiftFile) : List SwiftFile := List.insertionSort fileLe files

/-- The accumulation loop of load_all_api_elements; an exception raised while
    scanning any unit aborts the whole batch. -/
def loadAllGo : List SwiftFile → Except String (List ApiElement)
  | [] => .ok []
  | f :: fs =>
    match extractFromFile f with
    | .error e => .error e
    | .ok es =>
      match loadAllGo fs with
      | .error e => .error e
      | .ok rest => .ok (es ++ rest)

/-- load_all_api_elements over a directory listing. -/
def load_all_api_elements (files : List SwiftFile) : Except String (List ApiElement) :=
  loadAllGo (sortByName files)

/-- Strict filename order, used to state that sorting is canonical on listings
    with distinct names. -/
def fileLt (a b : SwiftFile) : Prop := fileLe a b ∧ a.name ≠ b.name

/-! Concrete scanner states used to exercise the theorems below on explicit
    inputs. -/

/-- A tiny readable source unit named a.swift. -/
def wfA : SwiftFile :=
  ⟨"a.swift", Except.ok ["@available(iOS 17.0, *)".data, "struct A \x7b".data]⟩

/-- A tiny readable source unit named b.swift. -/
def wfB : SwiftFile := ⟨"b.swift", Except.ok ["func b()".data]⟩

/-- A fresh state whose availability buffer holds one iOS 17 attribute line. -/
def stAvail17 : ScanState := { initState with avail_lines := ["@available(iOS 17.0, *)".data] }

/-- A state inside the braces of type Outer, with an iOS 17 attribute pending. -/
def stNested : ScanState :=
  { stAvail17 with type_stack := [("Outer".data, 1)] }

/-- A state inside the braces of type Foo, with empty buffers. -/
def stInFoo : ScanState := { initState with type_stack := [("Foo".data, 1)] }

/-- A state with one pending doc line. -/
def stDocPending : ScanState := { initState with doc_lines := ["/// keep".data] }

/-! Helper lemmas about the phases of the per-line loop. -/

theorem bracePhase_proj (s : ScanState) (line : Chars) (tm : Option (Chars × Chars)) :
    (bracePhase s line tm).doc_lines = s.doc_lines ∧
    (bracePhase s line tm).avail_lines = s.avail_lines ∧
    (bracePhase s line tm).elements = s.elements ∧
    (bracePhase s line tm).matched = s.matched := by
  unfold bracePhase
  cases tm with
  | none => simp
  | some tkn =>
    by_cases h : 0 < line.count '\x7b' <;> simp [h]

theorem clearPhase_of_matched (s : ScanState) (stripped : Chars) :
    clearPhase s stripped true = s := by
  unfold clearPhase
  simp

theorem clearPhase_attr (s : ScanState) (stripped : Chars)
    (h : "@".data.isPrefixOf stripped = true) :
    clearPhase s stripped false = s := by
  unfold clearPhase
  simp [h]

theorem matchPhase_some (src : String) (s : ScanState) (stripped normalized : Chars)
    (k n : Chars) (hm : declMatch normalized = some (k, n)) :
    matchPhase src s stripped normalized =
      { doc_lines := []
        avail_lines := []
        type_stack := s.type_stack
        brace_depth := s.brace_depth
        elements := s.elements ++
          (if eligible (parse_ios_availability s.avail_lines) then
            [buildElement src k n (s.type_stack.head?.map Prod.fst)
              (parse_ios_availability s.avail_lines) s.avail_lines s.doc_lines stripped]
          else [])
        matched := s.matched ++ [(k, n, s.type_stack.head?.map Prod.fst)] } := by
  unfold matchPhase
  rw [hm]
  by_cases h : eligible (parse_ios_availability s.avail_lines) <;> simp [h]

theorem matchPhase_none (src : String) (s : ScanState) (stripped normalized : Chars)
    (hm : declMatch normalized = none) :
    matchPhase src s stripped normalized = s := by
  unfold matchPhase
  rw [hm]

/-- On a declaration-candidate line, the step is the composition of the three
    phase blocks. -/
theorem scanStep_code (src : String) (s : ScanState) (line : Chars)
    (hdoc : isDocLine (pyStrip line) = false)
    (havail : isAvailLine (pyStrip line) = false) :
    scanStep src s line =
      clearPhase
        (bracePhase (matchPhase src s (pyStrip line) (normalize_line (pyStrip line)))
          line (matchTypeDecl (normalize_line (pyStrip line))))
        (pyStrip line) (declMatch (normalize_line (pyStrip line))).isSome := by
  unfold scanStep
  simp [hdoc, havail]

/-- A stripped line that starts with "@" is not a doc-comment line. -/
theorem isDocLine_of_at {stripped : Chars} (h : "@".data.isPrefixOf stripped = true) :
    isDocLine stripped = false := by
  cases stripped with
  | nil => simp [List.isPrefixOf] at h
  | cons c rest =>
    simp only [List.isPrefixOf, Bool.and_eq_true, beq_iff_eq] at h
    obtain ⟨rfl, -⟩ := h
    simp [isDocLine, List.isPrefixOf]

/-! Character-class and splitting lemmas used for the availability claims. -/

theorem digit_not_dot {c : Char} (h : isDigitChar c = true) : c ≠ '.' := by
  rintro rfl
  revert h
  decide

theorem digit_not_space {c : Char} (h : isDigitChar c = true) : isSpaceChar c = false := by
  unfold isDigitChar at h
  rw [Bool.and_eq_true, decide_eq_true_eq, decide_eq_true_eq] at h
  obtain ⟨h1, h2⟩ := h
  have hne : ∀ d : Char, d < '0' → ¬(c = d) := fun d hd =>
    (ne_of_gt (lt_of_lt_of_le hd h1))
  unfold isSpaceChar
  rw [decide_eq_false (hne ' ' (by decide)), decide_eq_false (hne '\t' (by decide)),
    decide_eq_false (hne '\n' (by decide)), decide_eq_false (hne '\r' (by decide)),
    decide_eq_false (hne '\x0b' (by decide)), decide_eq_false (hne '\x0c' (by decide))]
  rfl

theorem dropWhile_eq_self_of_not {p : Char → Bool} {s : Chars}
    (h : ∀ c ∈ s, p c = false) : s.dropWhile p = s := by
  cases s with
  | nil => rfl
  | cons c rest => rw [List.dropWhile_cons, if_neg (by simp [h c (by simp)])]

theorem pyStrip_of_no_space {s : Chars} (h : ∀ c ∈ s, isSpaceChar c = false) :
    pyStrip s = s := by
  unfold pyStrip
  rw [dropWhile_eq_self_of_not h,
    dropWhile_eq_self_of_not (fun c hc => h c (List.mem_reverse.mp hc))]
  exact List.reverse_reverse s

theorem splitOnDot_no_dot {a : Chars} (h : ∀ c ∈ a, c ≠ '.') : splitOnDot a = [a] := by
  induction a with
  | nil => rfl
  | cons c rest ih =>
    simp only [splitOnDot]
    rw [if_neg (h c (by simp)), ih (fun x hx => h x (by simp [hx]))]

theorem splitOnDot_append {a : Chars} (b : Chars) (h : ∀ c ∈ a, c ≠ '.') :
    splitOnDot (a ++ '.' :: b) = a :: splitOnDot b := by
  induction a with
  | nil => simp [splitOnDot]
  | cons c rest ih =>
    simp only [List.cons_append, splitOnDot, List.append_eq]
    rw [if_neg (h c (by simp)), ih (fun x hx => h x (by simp [hx]))]

/-! Lemmas about the two normalization loops of normalize_line. -/

theorem splitOnceSpace_eq {s a b : Chars} (h : splitOnceSpace s = some (a, b)) :
    s = a ++ ' ' :: b := by
  induction s generalizing a b with
  | nil => simp [splitOnceSpace] at h
  | cons c rest ih =>
    unfold splitOnceSpace at h
    by_cases hc : c = ' '
    · rw [if_pos hc] at h
      simp only [Option.some.injEq, Prod.mk.injEq] at h
      obtain ⟨rfl, rfl⟩ := h
      simp [hc]
    · rw [if_neg hc] at h
      cases hs : splitOnceSpace rest with
      | none => rw [hs] at h; simp at h
      | some p =>
        obtain ⟨p1, p2⟩ := p
        rw [hs] at h
        simp at h
        obtain ⟨rfl, rfl⟩ := h
        simp [ih hs]

theorem splitOnceSpace_append {m rest : Chars} (h : ∀ c ∈ m, c ≠ ' ') :
    splitOnceSpace (m ++ ' ' :: rest) = some (m, rest) := by
  induction m with
  | nil => simp [splitOnceSpace]
  | cons c m' ih =>
    simp only [List.cons_append, splitOnceSpace, List.append_eq]
    rw [if_neg (h c (by simp)), ih (fun x hx => h x (by simp [hx]))]
    rfl

theorem pyStrip_length_le (s : Chars) : (pyStrip s).length ≤ s.length := by
  unfold pyStrip
  rw [List.length_reverse]
  calc ((s.dropWhile isSpaceChar).reverse.dropWhile isSpaceChar).length
      ≤ (s.dropWhile isSpaceChar).reverse.length :=
        (List.dropWhile_sublist isSpaceChar).length_le
    _ = (s.dropWhile isSpaceChar).length := List.length_reverse _
    _ ≤ s.length := (List.dropWhile_sublist isSpaceChar).length_le

theorem stripModsFuel_congr :
    ∀ (f1 f2 : Nat) (s : Chars), s.length ≤ f1 → s.length ≤ f2 →
      stripModsFuel f1 s = stripModsFuel f2 s := by
  intro f1
  induction f1 with
  | zero =>
    intro f2 s h1 _
    obtain rfl : s = [] := List.eq_nil_of_length_eq_zero (Nat.le_zero.mp h1)
    cases f2 with
    | zero => rfl
    | succ n => simp [stripModsFuel, splitOnceSpace, ite_self]
  | succ f1' ih =>
    intro f2 s h1 h2
    cases f2 with
    | zero =>
      obtain rfl : s = [] := List.eq_nil_of_length_eq_zero (Nat.le_zero.mp h2)
      simp [stripModsFuel, splitOnceSpace, ite_self]
    | succ f2' =>
      simp only [stripModsFuel]
      cases hs : splitOnceSpace s with
      | none => rfl
      | some p =>
        obtain ⟨first, rest⟩ := p
        dsimp only
        have hlen : s.length = first.length + 1 + rest.length := by
          rw [splitOnceSpace_eq hs]; simp; omega
        by_cases hc : leading_modifiers.contains first = true
        · rw [if_pos hc, if_pos hc]
          exact ih f2' rest (by omega) (by omega)
        · rw [if_neg hc, if_neg hc]

theorem stripAttrsFuel_congr :
    ∀ (f1 f2 : Nat) (s : Chars), s.length ≤ f1 → s.length ≤ f2 →
      stripAttrsFuel f1 s = stripAttrsFuel f2 s := by
  intro f1
  induction f1 with
  | zero =>
    intro f2 s h1 _
    obtain rfl : s = [] := List.eq_nil_of_length_eq_zero (Nat.le_zero.mp h1)
    cases f2 with
    | zero => rfl
    | succ n => simp [stripAttrsFuel, List.isPrefixOf]
  | succ f1' ih =>
    intro f2 s h1 h2
    cases f2 with
    | zero =>
      obtain rfl : s = [] := List.eq_nil_of_length_eq_zero (Nat.le_zero.mp h2)
      simp [stripAttrsFuel, List.isPrefixOf]
    | succ f2' =>
      simp only [stripAttrsFuel]
      by_cases hcond : ("@".data.isPrefixOf s && s.contains ' ') = true
      · rw [if_pos hcond, if_pos hcond]
        cases hs : splitOnceSpace s with
        | none => rfl
        | some p =>
          obtain ⟨first, rest⟩ := p
          dsimp only
          have hlen : s.length = first.length + 1 + rest.length := by
            rw [splitOnceSpace_eq hs]; simp; omega
          have hr := pyStrip_length_le rest
          exact ih f2' (pyStrip rest) (by omega) (by omega)
      · rw [if_neg hcond, if_neg hcond]

theorem stripMods_mod {m rest : Chars} (hm : m ∈ leading_modifiers) :
    stripMods (m ++ ' ' :: rest) = stripMods rest := by
  have hns : ∀ c ∈ m, c ≠ ' ' := by fin_cases hm <;> decide
  have hcon : leading_modifiers.contains m = true := by fin_cases hm <;> decide
  have hlen : (m ++ ' ' :: rest).length = (m.length + rest.length) + 1 := by simp; omega
  unfold stripMods
  rw [hlen]
  simp only [stripModsFuel, splitOnceSpace_append hns, hcon, if_true]
  exact stripModsFuel_congr _ _ rest (by omega) (le_refl _)

theorem stripAttrs_attr {a rest : Chars} (hns : ∀ c ∈ a, c ≠ ' ') :
    stripAttrs (('@' :: a) ++ ' ' :: rest) = stripAttrs (pyStrip rest) := by
  have hns' : ∀ c ∈ '@' :: a, c ≠ ' ' := by
    intro c hc
    rcases List.mem_cons.mp hc with rfl | hc
    · decide
    · exact hns c hc
  have hpre : "@".data.isPrefixOf (('@' :: a) ++ ' ' :: rest) = true := by
    simp [List.isPrefixOf]
  have hsp : (('@' :: a) ++ ' ' :: rest).contains ' ' = true :=
    List.elem_eq_true_of_mem (by simp)
  have hlen : (('@' :: a) ++ ' ' :: rest).length = (a.length + 1 + rest.length) + 1 := by
    simp; omega
  unfold stripAttrs
  rw [hlen]
  simp only [stripAttrsFuel, hpre, hsp, Bool.and_self, if_true, splitOnceSpace_append hns']
  exact stripAttrsFuel_congr _ _ (pyStrip rest)
    (le_trans (pyStrip_length_le rest) (by omega)) (le_refl _)

/-! The claims. -/

/-- C1: on every matched declaration line, an ApiElement is emitted if and
    only if the availability verdict parsed from the accumulated buffer has an
    introduced version, that version is at least MIN_IOS_VERSION = (17, 0)
    under lexicographic comparison, and neither the deprecated nor the
    unavailable flag is set; moreover is_version_at_least evaluates as quoted
    at (17,0), (16,9) and (18,0) against (17,0), and a missing version never
    passes any threshold. -/
theorem claim1_eligibility_filter :
    (∀ (src : String) (s : ScanState) (line k n : Chars),
      isDocLine (pyStrip line) = false →
      isAvailLine (pyStrip line) = false →
      declMatch (normalize_line (pyStrip line)) = some (k, n) →
      (scanStep src s line).elements.length = s.elements.length +
        (if is_version_at_least (parse_ios_availability s.avail_lines).1 MIN_IOS_VERSION &&
            !(parse_ios_availability s.avail_lines).2.1 &&
            !(parse_ios_availability s.avail_lines).2.2 then 1 else 0)) ∧
    is_version_at_least (some (17, 0)) (17, 0) = true ∧
    is_version_at_least (some (16, 9)) (17, 0) = false ∧
    is_version_at_least (some (18, 0)) (17, 0) = true ∧
    (∀ t : Version, is_version_at_least none t = false) := by
  refine ⟨?_, by decide, by decide, by decide, fun t => rfl⟩
  intro src s line k n hdoc havail hm
  rw [scanStep_code src s line hdoc havail, hm]
  simp only [Option.isSome_some, clearPhase_of_matched]
  rw [(bracePhase_proj _ line _).2.2.1, matchPhase_some src s _ _ k n hm]
  show (s.elements ++ _).length = _
  simp only [eligible]
  by_cases h : (is_version_at_least (parse_ios_availability s.avail_lines).1 MIN_IOS_VERSION &&
      !(parse_ios_availability s.avail_lines).2.1 &&
      !(parse_ios_availability s.avail_lines).2.2) = true <;>
    simp [h, List.length_append]

/-- Witness for C1 at a concrete matched declaration with a concrete
    availability buffer. -/
theorem claim1_eligibility_filter_witness :
    (isDocLine (pyStrip "public struct Foo \x7b".data) = false ∧
     isAvailLine (pyStrip "public struct Foo \x7b".data) = false ∧
     declMatch (normalize_line (pyStrip "public struct Foo \x7b".data)) =
       some ("struct".data, "Foo".data)) ∧
    (scanStep "Foo.swift" stAvail17 "public struct Foo \x7b".data).elements.length =
      stAvail17.elements.length +
        (if is_version_at_least (parse_ios_availability stAvail17.avail_lines).1 MIN_IOS_VERSION &&
            !(parse_ios_availability stAvail17.avail_lines).2.1 &&
            !(parse_ios_availability stAvail17.avail_lines).2.2 then 1 else 0) :=
  ⟨⟨by decide, by decide, by decide⟩,
    claim1_eligibility_filter.1 "Foo.swift" stAvail17 _ "struct".data "Foo".data
      (by decide) (by decide) (by decide)⟩

/-- C2: the availability interpreter ignores lines without the iOS keyword;
    on an iOS line the unavailable and deprecated/obsoleted substrings set the
    respective flags; a direct iOS version pattern sets introduced, the loop
    not breaking across lines so the last setting wins (the fold processes
    every line); the keyed introduced pattern is consulted only when the
    direct pattern fails on that line; and version strings split on the dot
    with a missing minor defaulting to zero. -/
theorem claim2_availability_interpreter :
    (∀ (st : AvailState) (raw : Chars),
      isSubstr "iOS".data (pyStrip raw) = false → availStep st raw = st) ∧
    (∀ (st : AvailState) (raw : Chars),
      isSubstr "iOS".data (pyStrip raw) = true →
      isSubstr "unavailable".data (pyStrip raw) = true → (availStep st raw).2.2 = true) ∧
    (∀ (st : AvailState) (raw : Chars),
      isSubstr "iOS".data (pyStrip raw) = true →
      (isSubstr "deprecated".data (pyStrip raw) || isSubstr "obsoleted".data (pyStrip raw)) = true →
      (availStep st raw).2.1 = true) ∧
    (∀ (st : AvailState) (raw g : Chars),
      isSubstr "iOS".data (pyStrip raw) = true →
      searchDirect (pyStrip raw) = some g →
      (availStep st raw).1 = some (version_to_tuple g)) ∧
    (∀ (st : AvailState) (raw g : Chars),
      isSubstr "iOS".data (pyStrip raw) = true →
      searchDirect (pyStrip raw) = none →
      searchIntroduced (pyStrip raw) = some g →
      (availStep st raw).1 = some (version_to_tuple g)) ∧
    (∀ (st : AvailState) (raw : Chars),
      isSubstr "iOS".data (pyStrip raw) = true →
      searchDirect (pyStrip raw) = none →
      searchIntroduced (pyStrip raw) = none →
      (availStep st raw).1 = st.1) ∧
    (∀ (ls : List Chars) (l : Chars),
      parse_ios_availability (ls ++ [l]) = availStep (parse_ios_availability ls) l) ∧
    (∀ a b : Chars, (∀ c ∈ a, isDigitChar c = true) → (∀ c ∈ b, isDigitChar c = true) →
      version_to_tuple (a ++ '.' :: b) = (charsToNat a, charsToNat b)) ∧
    (∀ a : Chars, (∀ c ∈ a, isDigitChar c = true) →
      version_to_tuple a = (charsToNat a, 0)) := by
  refine ⟨?_, ?_, ?_, ?_, ?_, ?_, ?_, ?_, ?_⟩
  · intro st raw h
    simp [availStep, h]
  · intro st raw hiOS hunav
    cases hd : searchDirect (pyStrip raw) with
    | some g => simp [availStep, hiOS, hd, hunav]
    | none =>
      cases hi : searchIntroduced (pyStrip raw) with
      | some g => simp [availStep, hiOS, hd, hi, hunav]
      | none => simp [availStep, hiOS, hd, hi, hunav]
  · intro st raw hiOS hdep
    rw [Bool.or_eq_true] at hdep
    rcases hdep with h | h <;>
    · cases hd : searchDirect (pyStrip raw) with
      | some g => simp [availStep, hiOS, hd, h]
      | none =>
        cases hi : searchIntroduced (pyStrip raw) with
        | some g => simp [availStep, hiOS, hd, hi, h]
        | none => simp [availStep, hiOS, hd, hi, h]
  · intro st raw g hiOS hd
    simp [availStep, hiOS, hd]
  · intro st raw g hiOS hd hi
    simp [availStep, hiOS, hd, hi]
  · intro st raw hiOS hd hi
    simp [availStep, hiOS, hd, hi]
  · intro ls l
    simp [parse_ios_availability, List.foldl_append]
  · intro a b hda hdb
    have hns : ∀ c ∈ a ++ '.' :: b, isSpaceChar c = false := by
      intro c hc
      rcases List.mem_append.mp hc with hca | hcb
      · exact digit_not_space (hda c hca)
      · rcases List.mem_cons.mp hcb with rfl | hcb
        · decide
        · exact digit_not_space (hdb c hcb)
    unfold version_to_tuple
    rw [pyStrip_of_no_space hns,
      splitOnDot_append b (fun c hc => digit_not_dot (hda c hc)),
      splitOnDot_no_dot (fun c hc => digit_not_dot (hdb c hc))]
    simp
  · intro a hda
    unfold version_to_tuple
    rw [pyStrip_of_no_space (fun c hc => digit_not_space (hda c hc)),
      splitOnDot_no_dot (fun c hc => digit_not_dot (hda c hc))]
    simp

/-- Witness for C2: a macOS-only line is skipped, a direct iOS match sets the
    version, and version splitting behaves as stated on digit strings. -/
theorem claim2_availability_interpreter_witness :
    (isSubstr "iOS".data (pyStrip "@available(macOS 14.0, *)".data) = false ∧
     availStep (some (16, 0), true, false) "@available(macOS 14.0, *)".data =
       (some (16, 0), true, false)) ∧
    (isSubstr "iOS".data (pyStrip "@available(iOS 17.0, *)".data) = true ∧
     searchDirect (pyStrip "@available(iOS 17.0, *)".data) = some "17.0".data ∧
     (availStep (none, false, false) "@available(iOS 17.0, *)".data).1 =
       some (version_to_tuple "17.0".data)) ∧
    ((∀ c ∈ "17".data, isDigitChar c = true) ∧ (∀ c ∈ "0".data, isDigitChar c = true) ∧
     version_to_tuple ("17".data ++ '.' :: "0".data) = (charsToNat "17".data, charsToNat "0".data)) :=
  ⟨⟨by decide, claim2_availability_interpreter.1 _ _ (by decide)⟩,
   ⟨by decide, by decide,
    claim2_availability_interpreter.2.2.2.1 _ _ "17.0".data (by decide) (by decide)⟩,
   by decide, by decide,
   claim2_availability_interpreter.2.2.2.2.2.2.2.1 "17".data "0".data (by decide) (by decide)⟩

/-- C4 counterexample: a struct declared inside another type's braces is
    emitted with parent_type set to the enclosing type name, although the
    claim says parent_type is absent for type kinds. -/
theorem claim4_counterexample :
    (extract_api_elements "Nested.swift"
        ["struct Outer \x7b".data, "@available(iOS 17.0, *)".data,
         "struct Inner \x7b".data, "\x7d".data, "\x7d".data]).map
      (fun e => (e.kind, e.parent_type)) =
      [("struct".data, some "Outer".data)] := by
  decide

/-- C4 amended: for every matched declaration of any kind (type kinds
    included), the emitted element's parent_type is resolved from the top of
    the nesting stack whenever the declaration is eligible; only the derived
    full_name restricts the parent to function/property kinds. -/
theorem claim4_parent_type_all_kinds :
    ∀ (src : String) (s : ScanState) (line k n : Chars),
      isDocLine (pyStrip line) = false →
      isAvailLine (pyStrip line) = false →
      declMatch (normalize_line (pyStrip line)) = some (k, n) →
      eligible (parse_ios_availability s.avail_lines) = true →
      (scanStep src s line).elements.map ApiElement.parent_type =
        s.elements.map ApiElement.parent_type ++ [s.type_stack.head?.map Prod.fst] := by
  intro src s line k n hdoc havail hm helig
  rw [scanStep_code src s line hdoc havail, hm]
  simp only [Option.isSome_some, clearPhase_of_matched]
  rw [(bracePhase_proj _ line _).2.2.1, matchPhase_some src s _ _ k n hm]
  show (s.elements ++ _).map _ = _
  rw [helig]
  simp [buildElement]

/-- Witness for C4's amended theorem: an eligible struct matched inside an
    enclosing type context gets that context as its parent_type. -/
theorem claim4_parent_type_all_kinds_witness :
    (isDocLine (pyStrip "struct Inner \x7b".data) = false ∧
     isAvailLine (pyStrip "struct Inner \x7b".data) = false ∧
     declMatch (normalize_line (pyStrip "struct Inner \x7b".data)) =
       some ("struct".data, "Inner".data) ∧
     eligible (parse_ios_availability stNested.avail_lines) = true) ∧
    (scanStep "Nested.swift" stNested "struct Inner \x7b".data).elements.map
        ApiElement.parent_type =
      stNested.elements.map ApiElement.parent_type ++
        [stNested.type_stack.head?.map Prod.fst] :=
  ⟨⟨by decide, by decide, by decide, by decide⟩,
    claim4_parent_type_all_kinds "Nested.swift" stNested _ "struct".data "Inner".data
      (by decide) (by decide) (by decide) (by decide)⟩

/-- C5: parent_type of a matched declaration is resolved from the top of the
    nesting stack of the state before the brace update of the current line
    runs, so a type never reports itself as its own parent; and on the quoted
    four-line input, the first function's parent is the type name while the
    second function has no parent. -/
theorem claim5_parent_before_update :
    (∀ (src : String) (s : ScanState) (line k n : Chars),
      isDocLine (pyStrip line) = false →
      isAvailLine (pyStrip line) = false →
      declMatch (normalize_line (pyStrip line)) = some (k, n) →
      (scanStep src s line).matched = s.matched ++ [(k, n, s.type_stack.head?.map Prod.fst)]) ∧
    extractMatched ["struct Foo \x7b".data, "func bar()".data, "\x7d".data, "func baz()".data] =
      [("struct".data, "Foo".data, none), ("func".data, "bar".data, some "Foo".data),
       ("func".data, "baz".data, none)] := by
  constructor
  · intro src s line k n hdoc havail hm
    rw [scanStep_code src s line hdoc havail, hm]
    simp only [Option.isSome_some, clearPhase_of_matched]
    rw [(bracePhase_proj _ line _).2.2.2, matchPhase_some src s _ _ k n hm]
  · decide

/-- Witness for C5 at a concrete matched function under a nesting context. -/
theorem claim5_parent_before_update_witness :
    (isDocLine (pyStrip "func bar()".data) = false ∧
     isAvailLine (pyStrip "func bar()".data) = false ∧
     declMatch (normalize_line (pyStrip "func bar()".data)) =
       some ("func".data, "bar".data)) ∧
    (scanStep "Foo.swift" stInFoo "func bar()".data).matched =
      stInFoo.matched ++
        [("func".data, "bar".data, stInFoo.type_stack.head?.map Prod.fst)] :=
  ⟨⟨by decide, by decide, by decide⟩,
    claim5_parent_before_update.1 "Foo.swift" stInFoo _ "func".data "bar".data
      (by decide) (by decide) (by decide)⟩

/-- C6: a matched declaration clears both pending buffers whether or not it
    was eligible, and a non-matching attribute-only line (one that starts with
    "@" but is not an availability line) leaves both buffers untouched. -/
theorem claim6_buffer_reset :
    (∀ (src : String) (s : ScanState) (line k n : Chars),
      isDocLine (pyStrip line) = false →
      isAvailLine (pyStrip line) = false →
      declMatch (normalize_line (pyStrip line)) = some (k, n) →
      (scanStep src s line).doc_lines = [] ∧ (scanStep src s line).avail_lines = []) ∧
    (∀ (src : String) (s : ScanState) (line : Chars),
      "@".data.isPrefixOf (pyStrip line) = true →
      isAvailLine (pyStrip line) = false →
      declMatch (normalize_line (pyStrip line)) = none →
      (scanStep src s line).doc_lines = s.doc_lines ∧
      (scanStep src s line).avail_lines = s.avail_lines) := by
  constructor
  · intro src s line k n hdoc havail hm
    rw [scanStep_code src s line hdoc havail, hm]
    simp only [Option.isSome_some, clearPhase_of_matched]
    rw [matchPhase_some src s _ _ k n hm] at *
    exact ⟨(bracePhase_proj _ line _).1, (bracePhase_proj _ line _).2.1⟩
  · intro src s line hat havail hm
    rw [scanStep_code src s line (isDocLine_of_at hat) havail, hm]
    simp only [Option.isSome_none]
    rw [clearPhase_attr _ _ hat]
    rw [matchPhase_none src s _ _ hm]
    exact ⟨(bracePhase_proj _ line _).1, (bracePhase_proj _ line _).2.1⟩

/-- Witness for C6: a matched declaration clears pending buffers, and the
    bare attribute line "@objc" preserves them. -/
theorem claim6_buffer_reset_witness :
    ((isDocLine (pyStrip "func bar()".data) = false ∧
      isAvailLine (pyStrip "func bar()".data) = false ∧
      declMatch (normalize_line (pyStrip "func bar()".data)) =
        some ("func".data, "bar".data)) ∧
     (scanStep "A.swift" stDocPending "func bar()".data).doc_lines = [] ∧
     (scanStep "A.swift" stDocPending "func bar()".data).avail_lines = []) ∧
    (("@".data.isPrefixOf (pyStrip "@objc".data) = true ∧
      isAvailLine (pyStrip "@objc".data) = false ∧
      declMatch (normalize_line (pyStrip "@objc".data)) = none) ∧
     (scanStep "A.swift" stDocPending "@objc".data).doc_lines = stDocPending.doc_lines ∧
     (scanStep "A.swift" stDocPending "@objc".data).avail_lines = stDocPending.avail_lines) :=
  ⟨⟨⟨by decide, by decide, by decide⟩,
    claim6_buffer_reset.1 "A.swift" stDocPending _ "func".data "bar".data
      (by decide) (by decide) (by decide)⟩,
   ⟨⟨by decide, by decide, by decide⟩,
    claim6_buffer_reset.2 "A.swift" stDocPending _ (by decide) (by decide) (by decide)⟩⟩

/-- C8: the four-line scenario yields exactly one eligible element with the
    stated name, kind tag, doc, introduced version, absent parent, and a
    signature equal to the trimmed availability line followed by the trimmed
    declaration line joined by a newline. -/
theorem claim8_scenario :
    extract_api_elements "Foo.swift"
        ["/// Does X.".data, "@available(iOS 17.0, *)".data,
         "public struct Foo \x7b".data, "\x7d".data] =
      [{ name := "Foo".data
         kind := "struct".data
         signature := "@available(iOS 17.0, *)\npublic struct Foo \x7b".data
         doc := "Does X.".data
         ios_introduced := some (17, 0)
         deprecated := false
         unavailable := false
         source_file := "Foo.swift"
         parent_type := none }] := by
  decide

/-- C7 counterexample: a visibility modifier followed by mutating hides the
    func keyword, because normalize_line does not strip visibility modifiers
    and the func pattern only tolerates them directly before static/class/func;
    the quoted example line is left unchanged by normalization, matches no
    pattern, and yields no element even with a valid availability attribute. -/
theorem claim7_counterexample :
    normalize_line "public mutating func foo()".data = "public mutating func foo()".data ∧
    declMatch (normalize_line "public mutating func foo()".data) = none ∧
    extract_api_elements "A.swift"
      ["@available(iOS 17.0, *)".data, "public mutating func foo()".data] = [] := by
  refine ⟨by decide, by decide, by decide⟩

/-- C7 amended: normalize_line repeatedly strips leading attribute tokens and
    the eight modifier keywords nonisolated, inlinable, convenience, mutating,
    consuming, borrowing, isolated, rethrows; visibility modifiers and
    static/class are not stripped but are consumed by the declaration patterns
    themselves, so they are only tolerated in the order visibility then
    static/class immediately before the declaration keyword: mutating-then-
    visibility matches, visibility-then-mutating does not. -/
theorem claim7_modifier_stripping :
    (∀ (m rest : Chars), m ∈ leading_modifiers →
      stripMods (m ++ ' ' :: rest) = stripMods rest) ∧
    (∀ (a rest : Chars), (∀ c ∈ a, c ≠ ' ') →
      stripAttrs (('@' :: a) ++ ' ' :: rest) = stripAttrs (pyStrip rest)) ∧
    declMatch (normalize_line "mutating public func foo()".data) =
      some ("func".data, "foo".data) ∧
    declMatch (normalize_line "@objc public func foo()".data) =
      some ("func".data, "foo".data) ∧
    declMatch (normalize_line "public mutating func foo()".data) = none := by
  refine ⟨?_, ?_, by decide, by decide, by decide⟩
  · intro m rest hm
    exact stripMods_mod hm
  · intro a rest hns
    exact stripAttrs_attr hns

/-- Witness for C7's amended theorem on the mutating modifier and an attribute
    token. -/
theorem claim7_modifier_stripping_witness :
    ("mutating".data ∈ leading_modifiers ∧
     stripMods ("mutating".data ++ ' ' :: "public func foo()".data) =
       stripMods "public func foo()".data) ∧
    ((∀ c ∈ "objc".data, c ≠ ' ') ∧
     stripAttrs (('@' :: "objc".data) ++ ' ' :: "func foo()".data) =
       stripAttrs (pyStrip "func foo()".data)) :=
  ⟨⟨by decide, claim7_modifier_stripping.1 "mutating".data _ (by decide)⟩,
   ⟨by decide, claim7_modifier_stripping.2.1 "objc".data "func foo()".data (by decide)⟩⟩

/-! Lemmas for the nesting-stack depth invariant. -/

theorem popWhile_head_le (depth : Int) :
    ∀ (stack : List (Chars × Int)) (nm : Chars) (d : Int),
      (popWhile depth stack).head? = some (nm, d) → d ≤ depth := by
  intro stack
  induction stack with
  | nil => intro nm d h; simp [popWhile] at h
  | cons p rest ih =>
    intro nm d h
    obtain ⟨n', d'⟩ := p
    unfold popWhile at h
    by_cases hc : depth < d'
    · rw [if_pos hc] at h
      exact ih nm d h
    · rw [if_neg hc] at h
      simp only [List.head?_cons, Option.some.injEq, Prod.mk.injEq] at h
      obtain ⟨-, rfl⟩ := h
      omega

theorem bracePhase_stack_inv (s : ScanState) (line : Chars) (tm : Option (Chars × Chars)) :
    ∀ nm d, (bracePhase s line tm).type_stack.head? = some (nm, d) →
      d ≤ (bracePhase s line tm).brace_depth := by
  intro nm d
  unfold bracePhase
  cases tm with
  | none =>
    intro h
    exact popWhile_head_le _ _ nm d h
  | some tkn =>
    by_cases hb : 0 < line.count '\x7b' <;> simp only [hb, if_true, if_false] <;>
      · intro h
        exact popWhile_head_le _ _ nm d h

theorem clearPhase_stack (s : ScanState) (stripped : Chars) (b : Bool) :
    (clearPhase s stripped b).type_stack = s.type_stack ∧
    (clearPhase s stripped b).brace_depth = s.brace_depth := by
  unfold clearPhase
  split_ifs <;> simp

theorem scanStep_stack_inv (src : String) (s : ScanState) (line : Chars)
    (hs : ∀ nm d, s.type_stack.head? = some (nm, d) → d ≤ s.brace_depth) :
    ∀ nm d, (scanStep src s line).type_stack.head? = some (nm, d) →
      d ≤ (scanStep src s line).brace_depth := by
  intro nm d
  unfold scanStep
  by_cases h1 : isDocLine (pyStrip line) = true
  · rw [if_pos h1]
    exact hs nm d
  · rw [if_neg h1]
    by_cases h2 : isAvailLine (pyStrip line) = true
    · rw [if_pos h2]
      exact hs nm d
    · rw [if_neg h2]
      intro h
      rw [(clearPhase_stack _ _ _).1] at h
      rw [(clearPhase_stack _ _ _).2]
      exact bracePhase_stack_inv _ _ _ nm d h

theorem scanFold_stack_inv (src : String) :
    ∀ (lines : List Chars) (s : ScanState),
      (∀ nm d, s.type_stack.head? = some (nm, d) → d ≤ s.brace_depth) →
      ∀ nm d, ((lines.foldl (scanStep src) s).type_stack.head? = some (nm, d)) →
        d ≤ (lines.foldl (scanStep src) s).brace_depth := by
  intro lines
  induction lines with
  | nil => intro s hs; simpa using hs
  | cons l ls ih =>
    intro s hs
    simp only [List.foldl_cons]
    exact ih _ (scanStep_stack_inv src s l hs)

/-- C10: after every processed line, a non-empty nesting stack has its top
    recorded depth bounded by the current brace-depth counter, even when the
    counter is negative on unbalanced input; so the parent lookup of the next
    line never reads an entry whose recorded scope depth exceeds the current
    depth. -/
theorem claim10_stack_depth_invariant :
    ∀ (src : String) (lines : List Chars) (nm : Chars) (d : Int),
      ((lines.foldl (scanStep src) initState).type_stack).head? = some (nm, d) →
      d ≤ (lines.foldl (scanStep src) initState).brace_depth := by
  intro src lines
  exact scanFold_stack_inv src lines initState (by intro nm d h; simp [initState] at h)

/-- Witness for C10 after scanning one opening type declaration. -/
theorem claim10_stack_depth_invariant_witness :
    ((["struct Foo \x7b".data].foldl (scanStep "A.swift") initState).type_stack).head? =
      some ("Foo".data, 1) ∧
    (1 : Int) ≤ (["struct Foo \x7b".data].foldl (scanStep "A.swift") initState).brace_depth :=
  ⟨by decide, claim10_stack_depth_invariant "A.swift" _ "Foo".data 1 (by decide)⟩

/-- loadAllGo only succeeds when every unit in the list was readable. -/
theorem loadAllGo_ok :
    ∀ (l : List SwiftFile) (out : List ApiElement), loadAllGo l = Except.ok out →
      ∀ f ∈ l, ∃ lines, f.content = Except.ok lines := by
  intro l
  induction l with
  | nil => intro out _ f hf; simp at hf
  | cons g gs ih =>
    intro out h f hf
    unfold loadAllGo at h
    cases hg : extractFromFile g with
    | error e => rw [hg] at h; exact absurd h (by simp)
    | ok es =>
      rw [hg] at h
      cases hrest : loadAllGo gs with
      | error e => rw [hrest] at h; exact absurd h (by simp)
      | ok rest =>
        rcases List.mem_cons.mp hf with rfl | hf
        · unfold extractFromFile at hg
          cases hc : f.content with
          | error e => rw [hc] at hg; exact absurd hg (by simp)
          | ok lines => exact ⟨lines, rfl⟩
        · exact ih rest hrest f hf

/-- C3 counterexample: with one unreadable unit and one readable unit holding
    an eligible element, the batch returns the read error and not the
    surviving unit's elements — the failure is not caught per unit. -/
theorem claim3_counterexample :
    load_all_api_elements
        [⟨"broken.swift", Except.error "UnicodeDecodeError"⟩,
         ⟨"good.swift",
          Except.ok ["@available(iOS 17.0, *)".data, "public struct Good \x7b".data]⟩] =
      Except.error "UnicodeDecodeError" ∧
    extractFromFile
        ⟨"good.swift",
         Except.ok ["@available(iOS 17.0, *)".data, "public struct Good \x7b".data]⟩ =
      Except.ok
        [⟨"Good".data, "struct".data,
          "@available(iOS 17.0, *)\npublic struct Good \x7b".data, [],
          some (17, 0), false, false, "good.swift", none⟩] := by
  refine ⟨by decide, by decide⟩

/-- C3 amended: a failing file read is not caught anywhere in the API
    extraction engine: whenever any listed unit's read fails, the whole batch
    aborts with an exception and produces no element list at all. -/
theorem claim3_read_failure_aborts :
    ∀ (files : List SwiftFile) (f : SwiftFile) (err : String),
      f ∈ files → f.content = Except.error err →
      ∀ out, load_all_api_elements files ≠ Except.ok out := by
  intro files f err hf herr out hok
  unfold load_all_api_elements at hok
  have hmem : f ∈ sortByName files :=
    ((List.perm_insertionSort fileLe files).mem_iff).mpr hf
  obtain ⟨lines, hc⟩ := loadAllGo_ok _ out hok f hmem
  rw [herr] at hc
  exact Except.noConfusion hc

/-- Witness for C3's amended theorem on a one-file batch with a failing read. -/
theorem claim3_read_failure_aborts_witness :
    ((⟨"broken.swift", Except.error "boom"⟩ : SwiftFile) ∈
        ([⟨"broken.swift", Except.error "boom"⟩] : List SwiftFile) ∧
     (⟨"broken.swift", Except.error "boom"⟩ : SwiftFile).content = Except.error "boom") ∧
    load_all_api_elements [⟨"broken.swift", Except.error "boom"⟩] ≠ Except.ok [] :=
  ⟨⟨by decide, rfl⟩,
   claim3_read_failure_aborts [⟨"broken.swift", Except.error "boom"⟩]
     ⟨"broken.swift", Except.error "boom"⟩ "boom" (by decide) rfl []⟩

/-! Order lemmas for the filename comparison. -/

theorem charsLe_total : ∀ x y : Chars, charsLe x y = true ∨ charsLe y x = true := by
  intro x
  induction x with
  | nil => intro y; left; rfl
  | cons a as ih =>
    intro y
    cases y with
    | nil => right; rfl
    | cons b bs =>
      by_cases hab : a = b
      · subst hab
        simp only [charsLe, if_pos rfl]
        exact ih bs
      · rcases lt_or_gt_of_ne hab with h | h
        · left; simp [charsLe, hab, h]
        · right
          simp [charsLe, (Ne.symm hab), h]

theorem charsLe_trans :
    ∀ x y z : Chars, charsLe x y = true → charsLe y z = true → charsLe x z = true := by
  intro x
  induction x with
  | nil => intro y z _ _; rfl
  | cons a as ih =>
    intro y z h1 h2
    cases y with
    | nil => simp [charsLe] at h1
    | cons b bs =>
      cases z with
      | nil => simp [charsLe] at h2
      | cons c cs =>
        by_cases hab : a = b <;> by_cases hbc : b = c
        · subst hab; subst hbc
          simp only [charsLe, if_pos rfl] at h1 h2 ⊢
          exact ih bs cs h1 h2
        · subst hab
          simp only [charsLe, if_pos rfl] at h1
          simp only [charsLe, if_neg hbc] at h2 ⊢
          exact h2
        · subst hbc
          simp only [charsLe, if_neg hab] at h1 ⊢
          exact h1
        · simp only [charsLe, if_neg hab] at h1
          simp only [charsLe, if_neg hbc] at h2
          rw [decide_eq_true_eq] at h1 h2
          have hac : a < c := lt_trans h1 h2
          simp [charsLe, ne_of_lt hac, hac]

theorem charsLe_antisymm :
    ∀ x y : Chars, charsLe x y = true → charsLe y x = true → x = y := by
  intro x
  induction x with
  | nil =>
    intro y _ h2
    cases y with
    | nil => rfl
    | cons b bs => simp [charsLe] at h2
  | cons a as ih =>
    intro y h1 h2
    cases y with
    | nil => simp [charsLe] at h1
    | cons b bs =>
      by_cases hab : a = b
      · subst hab
        simp only [charsLe, if_pos rfl] at h1 h2
        rw [ih bs h1 h2]
      · simp only [charsLe, if_neg hab, decide_eq_true_eq] at h1
        simp only [charsLe, if_neg (Ne.symm hab), decide_eq_true_eq] at h2
        exact absurd h2 (lt_asymm h1)

/-- A listing sorted by non-strict filename order with pairwise distinct names
    is sorted by strict filename order. -/
theorem sorted_lt_of_sorted_le {l : List SwiftFile}
    (hs : List.Sorted fileLe l) (hn : (l.map SwiftFile.name).Nodup) :
    List.Sorted fileLt l := by
  have hne : l.Pairwise (fun a b => a.name ≠ b.name) := List.pairwise_map.mp hn
  exact (List.Pairwise.and hs hne).imp (fun h => ⟨h.1, h.2⟩)

/-- C9: the batch output is deterministic in the input file set: any two
    directory listings of the same files (in any order, names distinct) give
    the same ordered output, files being processed in sorted filename order
    and elements in file-line order within each file. -/
theorem claim9_deterministic_order :
    ∀ (fs1 fs2 : List SwiftFile), fs1.Perm fs2 → (fs1.map SwiftFile.name).Nodup →
      load_all_api_elements fs1 = load_all_api_elements fs2 := by
  haveI : IsTotal SwiftFile fileLe := ⟨fun a b => charsLe_total a.name.data b.name.data⟩
  haveI : IsTrans SwiftFile fileLe :=
    ⟨fun a b c h1 h2 => charsLe_trans a.name.data b.name.data c.name.data h1 h2⟩
  haveI : IsAntisymm SwiftFile fileLt :=
    ⟨fun a b h1 h2 =>
      absurd (String.ext (charsLe_antisymm a.name.data b.name.data h1.1 h2.1)) h1.2⟩
  intro fs1 fs2 hperm hnodup
  have h1 : (sortByName fs1).Perm fs1 := List.perm_insertionSort fileLe fs1
  have h2 : (sortByName fs2).Perm fs2 := List.perm_insertionSort fileLe fs2
  have hn1 : ((sortByName fs1).map SwiftFile.name).Nodup :=
    ((h1.map SwiftFile.name).nodup_iff).mpr hnodup
  have hn2 : ((sortByName fs2).map SwiftFile.name).Nodup :=
    ((h2.map SwiftFile.name).nodup_iff).mpr
      (((hperm.map SwiftFile.name).nodup_iff).mp hnodup)
  have hsort : sortByName fs1 = sortByName fs2 :=
    List.eq_of_perm_of_sorted (h1.trans (hperm.trans h2.symm))
      (sorted_lt_of_sorted_le (List.sorted_insertionSort fileLe fs1) hn1)
      (sorted_lt_of_sorted_le (List.sorted_insertionSort fileLe fs2) hn2)
  unfold load_all_api_elements
  rw [hsort]

/-- Witness for C9 on a two-file listing presented in both orders. -/
theorem claim9_deterministic_order_witness :
    ([wfB, wfA].Perm [wfA, wfB] ∧ (([wfB, wfA].map SwiftFile.name).Nodup)) ∧
    load_all_api_elements [wfB, wfA] = load_all_api_elements [wfA, wfB] :=
  ⟨⟨List.Perm.swap wfA wfB [], by decide⟩,
   claim9_deterministic_order [wfB, wfA] [wfA, wfB] (List.Perm.swap wfA wfB []) (by decide)⟩

end ApiGen
